import Mathlib

/-!
Verification of the EquityCurve data pipeline
(`src/src/components/EquityCurve/index.js`).

The component's pure core — timestamp normalization (`toSec`), field
resolution (`getCloseSec`, `getPL`), daily aggregation and equity-curve
building inside `fetchAll` — is embedded shallowly below.  JavaScript
numbers are modelled as rationals extended with `nan` and the two
infinities; JavaScript field values as `nullish | number | string`
(`null` and `undefined` are merged: the code only ever distinguishes
them through `== null`, `typeof x === "number"` and string coercion,
which agree on both).  Host library calls (`new Date(string)`,
`Date.prototype.toISOString`, `Number(string)`) are modelled from their
ECMA-262 definitions, restricted to the UTC forms of the Date Time
String Format and the decimal forms of StringToNumber.
-/

set_option allowUnsafeReducibility true
attribute [local semireducible] Rat.add Rat.mul Rat.inv Rat.sub Rat.ofScientific

namespace EquityCurve

/-- A JavaScript number: a rational, or one of the non-finite values. -/
inductive JNum where
  | fin (q : ℚ)
  | nan
  | posInf
  | negInf
deriving DecidableEq, Repr

/-- A JavaScript value appearing in a trade-record field:
`nullish` covers both `null` and `undefined`. -/
inductive JSVal where
  | nullish
  | num (n : JNum)
  | str (s : String)
deriving DecidableEq, Repr

/-- `Number.isFinite` on a `JNum`. -/
def JNum.isFin : JNum → Bool
  | .fin _ => true
  | _ => false

/-- JavaScript `>` against a rational constant (`NaN` compares false). -/
def JNum.gtConst : JNum → ℚ → Bool
  | .fin x, q => decide (q < x)
  | .posInf, _ => true
  | _, _ => false

/-- `Math.floor(v / 1000)` on a `JNum` (`Math.floor` fixes `NaN` and the
infinities). -/
def JNum.floorDiv1000 : JNum → JNum
  | .fin x => .fin ((⌊x / 1000⌋ : ℤ) : ℚ)
  | n => n

/-- A raw trade record: only the fields the component reads are kept;
every field defaults to `nullish` (i.e. absent). -/
structure Trade where
  close_timestamp : JSVal := .nullish
  exit : JSVal := .nullish
  close_time : JSVal := .nullish
  timestamp : JSVal := .nullish
  entry_timestamp : JSVal := .nullish
  real_profit_loss : JSVal := .nullish
  real_net_profit_loss : JSVal := .nullish
  real_net_pnl : JSVal := .nullish
  real_pnl : JSVal := .nullish
deriving DecidableEq, Repr

/-! ### Calendar arithmetic (proleptic Gregorian, as used by ECMA-262) -/

/-- Gregorian leap-year test. -/
def isLeap (y : ℤ) : Bool :=
  (y % 4 == 0 && y % 100 != 0) || y % 400 == 0

/-- Days in a month of a given year. -/
def daysInMonth (y : ℤ) (m : ℕ) : ℕ :=
  match m with
  | 1 => 31 | 3 => 31 | 5 => 31 | 7 => 31 | 8 => 31 | 10 => 31 | 12 => 31
  | 4 => 30 | 6 => 30 | 9 => 30 | 11 => 30
  | 2 => if isLeap y then 29 else 28
  | _ => 0

/-- Days since the Unix epoch of the civil date `y-m-d`
(the standard era-based conversion, floor divisions throughout). -/
def daysFromCivil (y : ℤ) (m d : ℕ) : ℤ :=
  let y2 : ℤ := if m ≤ 2 then y - 1 else y
  let era : ℤ := Int.fdiv y2 400
  let yoe : ℤ := y2 - era * 400
  let mp : ℤ := if 2 < m then (m : ℤ) - 3 else (m : ℤ) + 9
  let doy : ℤ := Int.fdiv (153 * mp + 2) 5 + (d : ℤ) - 1
  let doe : ℤ := yoe * 365 + Int.fdiv yoe 4 - Int.fdiv yoe 100 + doy
  era * 146097 + doe - 719468

/-- Civil date `(y, m, d)` of a count of days since the Unix epoch
(inverse of `daysFromCivil`). -/
def civilFromDays (z : ℤ) : ℤ × ℕ × ℕ :=
  let z2 : ℤ := z + 719468
  let era : ℤ := Int.fdiv z2 146097
  let doe : ℤ := z2 - era * 146097
  let yoe : ℤ :=
    Int.fdiv (doe - Int.fdiv doe 1460 + Int.fdiv doe 36524 - Int.fdiv doe 146096) 365
  let y : ℤ := yoe + era * 400
  let doy : ℤ := doe - (365 * yoe + Int.fdiv yoe 4 - Int.fdiv yoe 100)
  let mp : ℤ := Int.fdiv (5 * doy + 2) 153
  let d : ℤ := doy - Int.fdiv (153 * mp + 2) 5 + 1
  let m : ℤ := if mp < 10 then mp + 3 else mp - 9
  (if m ≤ 2 then y + 1 else y, m.toNat, d.toNat)

/-- Zero-pad a natural number to a given width. -/
def padZeros (width : ℕ) (n : ℕ) : String :=
  let s := toString n
  if s.length < width then String.mk (List.replicate (width - s.length) '0') ++ s
  else s

/-- The date part of `Date.prototype.toISOString` for an epoch-day count:
years 0–9999 print as 4 digits, other years in the expanded
`±YYYYYY` form (ECMA-262 Date Time String Format). -/
def isoDateString (day : ℤ) : String :=
  let c := civilFromDays day
  let y := c.1
  let m := c.2.1
  let d := c.2.2
  let ys :=
    if 0 ≤ y ∧ y ≤ 9999 then padZeros 4 y.toNat
    else (if y < 0 then "-" else "+") ++ padZeros 6 y.natAbs
  ys ++ "-" ++ padZeros 2 m ++ "-" ++ padZeros 2 d

/-! ### Host string-parsing functions, modelled from ECMA-262 -/

/-- Value of an ASCII digit character. -/
def digitVal? (c : Char) : Option ℕ :=
  if c.isDigit then some (c.toNat - 48) else none

/-- Two decimal digits. -/
def dec2 (a b : Char) : Option ℕ := do
  pure ((← digitVal? a) * 10 + (← digitVal? b))

/-- Three decimal digits. -/
def dec3 (a b c : Char) : Option ℕ := do
  pure ((← digitVal? a) * 100 + (← digitVal? b) * 10 + (← digitVal? c))

/-- Four decimal digits. -/
def dec4 (a b c d : Char) : Option ℕ := do
  pure ((← digitVal? a) * 1000 + (← digitVal? b) * 100 +
        (← digitVal? c) * 10 + (← digitVal? d))

/-- Epoch milliseconds of a validated UTC date-time. -/
def mkUtcMs (y mo dy hh mi ss ms : ℕ) : Option ℤ :=
  if 1 ≤ mo ∧ mo ≤ 12 ∧ 1 ≤ dy ∧ dy ≤ daysInMonth (y : ℤ) mo ∧
     hh ≤ 23 ∧ mi ≤ 59 ∧ ss ≤ 59 then
    some (daysFromCivil (y : ℤ) mo dy * 86400000 +
          ((hh * 3600 + mi * 60 + ss) * 1000 + ms : ℕ))
  else none

/-- `new Date(s).getTime()` modelled from the ECMA-262 Date Time String
Format, UTC forms only: `YYYY-MM-DD` (interpreted as UTC midnight),
`YYYY-MM-DDTHH:MM:SSZ` and `YYYY-MM-DDTHH:MM:SS.sssZ`.  Strings outside
this grammar (including the host-specific fallback formats) are treated
as unparseable and yield `none` (`NaN`). -/
def parseDateMs (s : String) : Option ℤ :=
  match s.toList with
  | [a, b, c, d, '-', e, f, '-', g, h] => do
      mkUtcMs (← dec4 a b c d) (← dec2 e f) (← dec2 g h) 0 0 0 0
  | [a, b, c, d, '-', e, f, '-', g, h, 'T', i, j, ':', k, l, ':', m, n, 'Z'] => do
      mkUtcMs (← dec4 a b c d) (← dec2 e f) (← dec2 g h)
              (← dec2 i j) (← dec2 k l) (← dec2 m n) 0
  | [a, b, c, d, '-', e, f, '-', g, h, 'T', i, j, ':', k, l, ':', m, n,
     '.', p, q, r, 'Z'] => do
      mkUtcMs (← dec4 a b c d) (← dec2 e f) (← dec2 g h)
              (← dec2 i j) (← dec2 k l) (← dec2 m n) (← dec3 p q r)
  | _ => none

/-- Numeric value of a string of decimal digits. -/
def digitsVal (s : String) : ℕ :=
  s.data.foldl (fun n c => n * 10 + (c.toNat - 48)) 0

/-- Unsigned decimal literal: `digits`, `digits.digits`, `digits.` or
`.digits`. -/
def parseUnsignedDec (cs : List Char) : Option ℚ :=
  let sp := cs.span Char.isDigit
  let intDigits := sp.1
  match sp.2 with
  | [] => if intDigits.isEmpty then none
          else some ((intDigits.foldl (fun n c => n * 10 + (c.toNat - 48)) 0 : ℕ) : ℚ)
  | '.' :: fracs =>
      if fracs.all Char.isDigit ∧ (intDigits ≠ [] ∨ fracs ≠ []) then
        some (((intDigits.foldl (fun n c => n * 10 + (c.toNat - 48)) 0 : ℕ) : ℚ) +
              ((fracs.foldl (fun n c => n * 10 + (c.toNat - 48)) 0 : ℕ) : ℚ) /
                (10 : ℚ) ^ fracs.length)
      else none
  | _ => none

/-- StrWhiteSpaceChar of ECMA-262 StringToNumber, ASCII subset. -/
def isJsSpace (c : Char) : Bool :=
  c = ' ' || c = '\t' || c = '\n' || c = '\r'

/-- Strip leading and trailing whitespace. -/
def trimChars (cs : List Char) : List Char :=
  ((cs.dropWhile isJsSpace).reverse.dropWhile isJsSpace).reverse

/-- `Number(s)` on a string, modelled from ECMA-262 StringToNumber:
whitespace is trimmed, the empty string is `0`, decimal literals with an
optional sign and the `Infinity` forms are recognized; everything else
(hex, exponent forms, other text) is out of the modelled grammar and
yields `nan`. -/
def strToNumber (s : String) : JNum :=
  let t := trimChars s.data
  if t.isEmpty then .fin 0
  else if t = "Infinity".data ∨ t = "+Infinity".data then .posInf
  else if t = "-Infinity".data then .negInf
  else
    match t with
    | '+' :: rest => match parseUnsignedDec rest with
      | some q => .fin q
      | none => .nan
    | '-' :: rest => match parseUnsignedDec rest with
      | some q => .fin (-q)
      | none => .nan
    | rest => match parseUnsignedDec rest with
      | some q => .fin q
      | none => .nan

/-! ### The component's helpers, translated from the source -/

/-- `toSec` (index.js lines 25–38): convert the various timestamp
formats to seconds.  `none` models the `undefined` return. -/
def toSec (v : JSVal) : Option JNum :=
  match v with
  | .nullish => none
  | .num n =>
      -- treat 13-digit as ms (source comment); the test is `v > 2_000_000_000_000`
      if n.gtConst 2000000000000 then some n.floorDiv1000
      else some n -- already seconds
  | .str s =>
      if s.data.length = 13 ∧ s.data.all Char.isDigit then
        some (.fin ((⌊((digitsVal s : ℚ)) / 1000⌋ : ℤ) : ℚ)) -- ms
      else if s.data.length = 10 ∧ s.data.all Char.isDigit then
        some (.fin (digitsVal s : ℚ)) -- sec
      else
        match parseDateMs s with
        | some t => some (.fin ((Int.fdiv t 1000 : ℤ) : ℚ))
        | none => none

/-- `getCloseSec` (index.js lines 41–49): the `??` chain over the five
candidate close-time fields. -/
def getCloseSec (t : Trade) : Option JNum :=
  (toSec t.close_timestamp).orElse fun _ =>
  (toSec t.exit).orElse fun _ =>
  (toSec t.close_time).orElse fun _ =>
  (toSec t.timestamp).orElse fun _ =>
  toSec t.entry_timestamp

/-- One field probe of `getPL` (index.js lines 52–82): an
already-numeric value is returned directly; a present non-number is
coerced with `Number(...)` and accepted only if finite. -/
def plField (v : JSVal) : Option JNum :=
  match v with
  | .num n => some n
  | .nullish => none
  | .str s =>
      let x := strToNumber s
      if x.isFin then some x else none

/-- `getPL` (index.js lines 52–82): probes the four PnL fields in
source order, short-circuiting on the first accepted value. -/
def getPL (t : Trade) : Option JNum :=
  match plField t.real_profit_loss with
  | some v => some v
  | none =>
    match plField t.real_net_profit_loss with
    | some v => some v
    | none =>
      match plField t.real_net_pnl with
      | some v => some v
      | none => plField t.real_pnl

/-! ### Aggregation and curve building (`fetchAll`, index.js 113–164) -/

/-- The object `dailyPL`: a JavaScript object used as a string-keyed
map, modelled as an association list in key-insertion order (JavaScript
objects enumerate string keys in insertion order). -/
abbrev DailyPL := List (String × ℚ)

/-- Property read `m[d]`: `none` models `undefined`. -/
def lookupD (m : DailyPL) (d : String) : Option ℚ :=
  match m with
  | [] => none
  | (k, v) :: rest => if k = d then some v else lookupD rest d

/-- `dailyPL[day] || 0` (a stored sum of `0` is falsy and is replaced by
`0`, which is the same value). -/
def lookup0 (m : DailyPL) (d : String) : ℚ :=
  (lookupD m d).getD 0

/-- Property write `m[d] = v`: updates an existing key in place, or
appends a new key at the end. -/
def setKey (m : DailyPL) (d : String) (v : ℚ) : DailyPL :=
  match m with
  | [] => [(d, v)]
  | (k, w) :: rest => if k = d then (d, v) :: rest else (k, w) :: setKey rest d v

/-- `dailyPL[day] = (dailyPL[day] || 0) + pl`. -/
def addTo (m : DailyPL) (d : String) (pl : ℚ) : DailyPL :=
  setKey m d (lookup0 m d + pl)

/-- ECMA-262 ToIntegerOrInfinity on a finite number: truncation toward
zero (applied by `TimeClip` to a `Date`'s time value). -/
def truncRat (q : ℚ) : ℤ :=
  if 0 ≤ q then ⌊q⌋ else ⌈q⌉

/-- What one loop iteration of `fetchAll` (index.js 133–143) does with a
trade: skip it, throw (`toISOString` raises a RangeError when the time
value `ctSec * 1000` lies outside ±8.64e15 ms), or add its PnL to a day
bucket.  The bucket key is `toISOString().slice(0, 10)`. -/
inductive TradeEffect where
  | skip
  | throwRange
  | add (day : String) (pl : ℚ)
deriving DecidableEq, Repr

/-- Classify a trade as the body of the `for (const t of trades)` loop
does: `Number.isFinite` guards on the resolved close time and PnL, then
the UTC day key is computed. -/
def tradeEffect (t : Trade) : TradeEffect :=
  match getCloseSec t with
  | some (.fin ct) =>
      (match getPL t with
       | some (.fin pl) =>
          if |ct * 1000| ≤ 8640000000000000 then
            .add ((isoDateString (Int.fdiv (truncRat (ct * 1000)) 86400000)).take 10) pl
          else .throwRange
       | _ => .skip)
  | _ => .skip

/-- Decidable equality for `Except`, used to state concrete facts about
aggregation results. -/
instance {ε α : Type} [DecidableEq ε] [DecidableEq α] :
    DecidableEq (Except ε α) := fun a b =>
  match a, b with
  | .error e, .error f =>
      if h : e = f then .isTrue (by rw [h]) else .isFalse (by
        intro hc; cases hc; exact h rfl)
  | .error _, .ok _ => .isFalse (by intro hc; cases hc)
  | .ok _, .error _ => .isFalse (by intro hc; cases hc)
  | .ok x, .ok y =>
      if h : x = y then .isTrue (by rw [h]) else .isFalse (by
        intro hc; cases hc; exact h rfl)

/-- The aggregation loop over a list of trades: builds `dailyPL`,
propagating the `toISOString` RangeError as `Except.error`. -/
def aggregate : List Trade → DailyPL → Except Unit DailyPL
  | [], m => .ok m
  | t :: ts, m =>
    match tradeEffect t with
    | .skip => aggregate ts m
    | .throwRange => .error ()
    | .add day pl => aggregate ts (addTo m day pl)

/-- JavaScript string `<` : lexicographic comparison of the code-unit
sequences (for the characters appearing here, code units and code
points agree). -/
def jsLtChars : List Char → List Char → Bool
  | [], [] => false
  | [], _ :: _ => true
  | _ :: _, [] => false
  | c :: cs, d :: ds =>
    if c.toNat < d.toNat then true
    else if d.toNat < c.toNat then false
    else jsLtChars cs ds

/-- JavaScript `a < b` on strings. -/
def jsStrLt (a b : String) : Bool :=
  jsLtChars a.data b.data

/-- Insert a string into an already-sorted list. -/
def insertSorted (x : String) : List String → List String
  | [] => [x]
  | y :: ys => if jsStrLt x y then x :: y :: ys else y :: insertSorted x ys

/-- Sort a list of strings ascending by the JavaScript comparison
(the default `Array.prototype.sort` comparator on distinct keys is
deterministic, so any correct sort produces this output). -/
def jsSortStrs : List String → List String
  | [] => []
  | x :: xs => insertSorted x (jsSortStrs xs)

/-- `Object.keys(dailyPL)`: the keys in insertion order. -/
def objKeys (m : DailyPL) : List String :=
  m.map Prod.fst

/-- `Object.keys(dailyPL).sort()`. -/
def sortedDays (m : DailyPL) : List String :=
  jsSortStrs (objKeys m)

/-- One step of the equity accumulation loop
(`equity += dailyPL[day]; pts.push({date: day, equity})`). -/
def curveStep (m : DailyPL) (acc : List (String × ℚ) × ℚ) (day : String) :
    List (String × ℚ) × ℚ :=
  let e := acc.2 + lookup0 m day
  (acc.1 ++ [(day, e)], e)

/-- The equity-curve builder (index.js 147–154). -/
def buildCurve (m : DailyPL) (sb : ℚ) : List (String × ℚ) :=
  ((sortedDays m).foldl (curveStep m) ([], sb)).1

/-! ### Fetch orchestration -/

/-- The body of one per-symbol response, after the HTTP status check:
`invalidJson` models a body on which `res.json()` rejects;
`jsonWith none` models a parsed body whose `trades` field is absent or
not an array (the `Array.isArray` check then defaults to `[]`). -/
inductive Body where
  | invalidJson
  | jsonWith (trades : Option (List Trade))
deriving DecidableEq, Repr

/-- One per-symbol fetch outcome: `httpError` covers a transport error
and a non-ok status (both reject the symbol's promise). -/
inductive Response where
  | httpError
  | ok (body : Body)
deriving DecidableEq, Repr

/-- The trades contributed by one response, or the rejection of its
promise. -/
def responseTrades : Response → Except Unit (List Trade)
  | .httpError => .error ()
  | .ok .invalidJson => .error ()
  | .ok (.jsonWith t?) => .ok (t?.getD [])

/-- `Promise.all` over the per-symbol requests: all trades merged, or
the first rejection. -/
def collectTrades : List Response → Except Unit (List Trade)
  | [] => .ok []
  | r :: rs =>
    match responseTrades r with
    | .error e => .error e
    | .ok ts =>
      match collectTrades rs with
      | .error e => .error e
      | .ok rest => .ok (ts ++ rest)

/-- The component state touched by a fetch cycle: the committed points
and whether an error message is shown. -/
structure ComponentState where
  points : List (String × ℚ)
  err : Bool
deriving DecidableEq, Repr

/-- One uncancelled `fetchAll` cycle (index.js 113–164): on success the
new curve replaces `points` and the error is cleared; on any rejection
(HTTP failure, JSON parse failure, or the aggregation throw) the
`catch` sets the error and `points` is left untouched. -/
def fetchAllStep (rs : List Response) (sb : ℚ) (st : ComponentState) :
    ComponentState :=
  match collectTrades rs with
  | .error _ => ⟨st.points, true⟩
  | .ok ts =>
    match aggregate ts [] with
    | .error _ => ⟨st.points, true⟩
    | .ok daily => ⟨buildCurve daily sb, false⟩

/-! ### Specification-side definitions and proof-support definitions -/

/-- First non-`none` element of a list of options (the spec's
"short-circuits at the first field that resolves"). -/
def firstSome {α : Type} : List (Option α) → Option α
  | [] => none
  | o :: os =>
    match o with
    | some x => some x
    | none => firstSome os

/-- The spec's priority order of PnL fields (§4.3). -/
def plFieldOrder : List (Trade → JSVal) :=
  [(·.real_profit_loss), (·.real_net_profit_loss), (·.real_net_pnl), (·.real_pnl)]

/-- PnL resolution as the spec words it: probe the fields in priority
order, take the first accepted value. -/
def getPLSpec (t : Trade) : Option JNum :=
  firstSome (plFieldOrder.map (fun f => plField (f t)))

/-- The spec's priority order of close-time fields (§4.2). -/
def closeFieldOrder : List (Trade → JSVal) :=
  [(·.close_timestamp), (·.exit), (·.close_time), (·.timestamp), (·.entry_timestamp)]

/-- Close-timestamp resolution as the spec words it: first non-absent
normalized timestamp over the prioritized fields. -/
def getCloseSecSpec (t : Trade) : Option JNum :=
  firstSome (closeFieldOrder.map (fun f => toSec (f t)))

/-- The daily map update performed by one trade (identity for a skipped
or throwing trade); used to express the aggregation loop as a fold. -/
def applyEffect (m : DailyPL) (t : Trade) : DailyPL :=
  match tradeEffect t with
  | .add d p => addTo m d p
  | _ => m

/-- Whether a trade makes the aggregation loop throw. -/
def throwsB (t : Trade) : Bool :=
  match tradeEffect t with
  | .throwRange => true
  | _ => false

/-- Extensional equality of two daily maps: the same sum (or the same
absence) under every key.  Two JavaScript objects built in different
key-insertion orders are identical as mappings exactly when this
holds. -/
def MapEq (m1 m2 : DailyPL) : Prop :=
  ∀ d, lookupD m1 d = lookupD m2 d

/-- Lift of `MapEq` to aggregation results: both throw, or both succeed
with identical mappings. -/
def exceptMapEq : Except Unit DailyPL → Except Unit DailyPL → Prop
  | .error _, .error _ => True
  | .ok m1, .ok m2 => MapEq m1 m2
  | _, _ => False

/-- The PnL of a trade when it resolves to a finite number, `none` when
it resolves to absent or to a non-finite number. -/
def plFiniteVal (t : Trade) : Option ℚ :=
  match getPL t with
  | some (.fin q) => some q
  | _ => none

/-- A trade whose resolved close timestamp (`-10^13`, passed through as
seconds) is finite but whose time value `-10^16` ms is outside the
range `toISOString` accepts. -/
def overflowTrade : Trade :=
  { close_timestamp := .num (.fin (-10000000000000)), real_profit_loss := .num (.fin 1) }

/-- The recursive form of the equity accumulation loop, used to state
the prefix-sum characterization. -/
def curveGo (m : DailyPL) : List String → ℚ → List (String × ℚ)
  | [], _ => []
  | d :: ds, e => (d, e + lookup0 m d) :: curveGo m ds (e + lookup0 m d)

/-- A fully usable trade: closes at epoch second 1700000000
(2023-11-14 UTC) with PnL 50. -/
def usableTrade : Trade :=
  { close_timestamp := .num (.fin 1700000000), real_profit_loss := .num (.fin 50) }

/-- A second usable trade on a different UTC day (2023-11-16). -/
def usableTrade2 : Trade :=
  { close_timestamp := .num (.fin 1700100000), real_profit_loss := .num (.fin (-7)) }

/-! ### Lemmas about the daily map -/

theorem lookupD_setKey (m : DailyPL) (d : String) (v : ℚ) (x : String) :
    lookupD (setKey m d v) x = if x = d then some v else lookupD m x := by
  induction m with
  | nil =>
    simp only [setKey, lookupD]
    by_cases h : d = x
    · subst h; simp
    · have h2 : ¬x = d := fun hxd => h hxd.symm
      simp [h, h2]
  | cons kv rest ih =>
    obtain ⟨k, w⟩ := kv
    simp only [setKey]
    by_cases hk : k = d
    · subst hk
      simp only [if_pos rfl, lookupD]
      by_cases hx : k = x
      · subst hx; simp
      · have hx2 : ¬x = k := fun hxk => hx hxk.symm
        simp [hx, hx2]
    · simp only [if_neg hk, lookupD, ih]
      by_cases hkx : k = x
      · subst hkx
        have hxd : ¬k = d := hk
        simp [hxd]
      · simp [hkx]

theorem lookupD_addTo (m : DailyPL) (d : String) (p : ℚ) (x : String) :
    lookupD (addTo m d p) x =
      if x = d then some (lookup0 m d + p) else lookupD m x := by
  simp [addTo, lookupD_setKey]

theorem lookup0_addTo (m : DailyPL) (d : String) (p : ℚ) (x : String) :
    lookup0 (addTo m d p) x =
      if x = d then lookup0 m d + p else lookup0 m x := by
  simp only [lookup0, lookupD_addTo]
  by_cases h : x = d <;> simp [h]

/-! ### Lemmas about the equity-curve builder -/

theorem foldl_curveStep (m : DailyPL) :
    ∀ (days : List String) (pref : List (String × ℚ)) (e : ℚ),
      days.foldl (curveStep m) (pref, e) =
        (pref ++ curveGo m days e, e + (days.map (lookup0 m)).sum) := by
  intro days
  induction days with
  | nil => intro pref e; simp [curveGo]
  | cons d ds ih =>
    intro pref e
    simp only [List.foldl_cons, curveStep, curveGo, ih, List.map_cons, List.sum_cons,
      List.append_assoc, List.singleton_append, add_assoc]

theorem buildCurve_eq_curveGo (m : DailyPL) (sb : ℚ) :
    buildCurve m sb = curveGo m (sortedDays m) sb := by
  simp [buildCurve, foldl_curveStep]

theorem curveGo_map_fst (m : DailyPL) :
    ∀ (days : List String) (e : ℚ), (curveGo m days e).map Prod.fst = days := by
  intro days
  induction days with
  | nil => intro e; simp [curveGo]
  | cons d ds ih => intro e; simp [curveGo, ih]

theorem curveGo_getElem (m : DailyPL) :
    ∀ (days : List String) (e : ℚ) (i : ℕ) (day : String),
      days[i]? = some day →
      (curveGo m days e)[i]? =
        some (day, e + ((days.take (i + 1)).map (lookup0 m)).sum) := by
  intro days
  induction days with
  | nil => intro e i day h; simp at h
  | cons d ds ih =>
    intro e i day h
    match i with
    | 0 =>
      simp only [List.getElem?_cons_zero, Option.some.injEq] at h
      subst h
      simp [curveGo]
    | i + 1 =>
      simp only [List.getElem?_cons_succ] at h
      have h2 := ih (e + lookup0 m d) i day h
      simp only [curveGo, List.getElem?_cons_succ, List.take_succ_cons,
        List.map_cons, List.sum_cons, h2, ← add_assoc]

/-! ### Lemmas about the aggregation loop -/

theorem aggregate_eq_fold (l : List Trade) :
    ∀ m, aggregate l m =
      if l.any throwsB then .error () else .ok (l.foldl applyEffect m) := by
  induction l with
  | nil => intro m; simp [aggregate]
  | cons t l ih =>
    intro m
    cases h : tradeEffect t with
    | skip =>
      have hb : throwsB t = false := by simp [throwsB, h]
      simp [aggregate, h, ih, List.any_cons, hb, applyEffect]
    | throwRange =>
      have hb : throwsB t = true := by simp [throwsB, h]
      simp [aggregate, h, List.any_cons, hb]
    | add d p =>
      have hb : throwsB t = false := by simp [throwsB, h]
      simp [aggregate, h, ih, List.any_cons, hb, applyEffect]

theorem mapEq_addTo {m1 m2 : DailyPL} (h : MapEq m1 m2) (d : String) (p : ℚ) :
    MapEq (addTo m1 d p) (addTo m2 d p) := by
  intro x
  have h0 : lookup0 m1 d = lookup0 m2 d := by simp [lookup0, h d]
  simp [lookupD_addTo, h0, h x]

theorem mapEq_applyEffect {m1 m2 : DailyPL} (h : MapEq m1 m2) (t : Trade) :
    MapEq (applyEffect m1 t) (applyEffect m2 t) := by
  cases ht : tradeEffect t <;> simp [applyEffect, ht, h, mapEq_addTo h]

theorem addTo_addTo_comm (m : DailyPL) (d1 d2 : String) (p1 p2 : ℚ) :
    MapEq (addTo (addTo m d1 p1) d2 p2) (addTo (addTo m d2 p2) d1 p1) := by
  intro x
  simp only [lookupD_addTo, lookup0_addTo]
  by_cases h1 : x = d1 <;> by_cases h2 : x = d2
  · subst h1; subst h2
    simp [add_right_comm]
  · subst h1
    simp [h2, fun h : x = d2 => h2 h]
  · subst h2
    simp [h1]
  · simp [h1, h2]

theorem applyEffect_comm (m : DailyPL) (t1 t2 : Trade) :
    MapEq (applyEffect (applyEffect m t1) t2) (applyEffect (applyEffect m t2) t1) := by
  cases h1 : tradeEffect t1 <;> cases h2 : tradeEffect t2 <;>
    simp only [applyEffect, h1, h2] <;>
    first
      | exact fun d => rfl
      | exact addTo_addTo_comm m _ _ _ _

theorem foldl_applyEffect_mapEq {m1 m2 : DailyPL} (h : MapEq m1 m2) :
    ∀ l : List Trade, MapEq (l.foldl applyEffect m1) (l.foldl applyEffect m2) := by
  intro l
  induction l generalizing m1 m2 with
  | nil => exact h
  | cons t l ih => simpa [List.foldl_cons] using ih (mapEq_applyEffect h t)

theorem perm_foldl_applyEffect {l1 l2 : List Trade} (p : l1.Perm l2) :
    ∀ {m1 m2 : DailyPL}, MapEq m1 m2 →
      MapEq (l1.foldl applyEffect m1) (l2.foldl applyEffect m2) := by
  induction p with
  | nil => intro m1 m2 h; exact h
  | cons x _ ih =>
    intro m1 m2 h
    simpa [List.foldl_cons] using ih (mapEq_applyEffect h x)
  | swap x y l =>
    intro m1 m2 h
    simp only [List.foldl_cons]
    have step : MapEq (applyEffect (applyEffect m1 y) x) (applyEffect (applyEffect m2 x) y) :=
      fun d => ((applyEffect_comm m1 y x) d).trans
        ((mapEq_applyEffect (mapEq_applyEffect h x) y) d)
    exact foldl_applyEffect_mapEq step l
  | trans _ _ ih1 ih2 =>
    intro m1 m2 h
    exact fun d => ((ih1 h) d).trans ((ih2 (fun _ => rfl)) d)

theorem perm_any_eq {α : Type} {l1 l2 : List α} (p : l1.Perm l2) (f : α → Bool) :
    l1.any f = l2.any f := by
  induction p with
  | nil => rfl
  | cons x _ ih => simp [List.any_cons, ih]
  | swap x y l => simp only [List.any_cons, ← Bool.or_assoc, Bool.or_comm (f y) (f x)]
  | trans _ _ ih1 ih2 => rw [ih1, ih2]

/-! ### Lemmas about unusable trades -/

theorem tradeEffect_skip_of_unusable (t : Trade)
    (h : getCloseSec t = none ∨ plFiniteVal t = none) :
    tradeEffect t = .skip := by
  rcases h with h | h
  · simp [tradeEffect, h]
  · cases hc : getCloseSec t with
    | none => simp [tradeEffect, hc]
    | some n =>
      cases n with
      | fin ct =>
        cases hp : getPL t with
        | none => simp [tradeEffect, hc, hp]
        | some x =>
          cases x with
          | fin q => simp [plFiniteVal, hp] at h
          | nan => simp [tradeEffect, hc, hp]
          | posInf => simp [tradeEffect, hc, hp]
          | negInf => simp [tradeEffect, hc, hp]
      | nan => simp [tradeEffect, hc]
      | posInf => simp [tradeEffect, hc]
      | negInf => simp [tradeEffect, hc]

theorem aggregate_all_skip (ts : List Trade)
    (h : ∀ t ∈ ts, tradeEffect t = .skip) : ∀ m, aggregate ts m = .ok m := by
  induction ts with
  | nil => intro m; rfl
  | cons t ts ih =>
    intro m
    have ht : tradeEffect t = .skip := h t (List.mem_cons_self t ts)
    simp only [aggregate, ht]
    exact ih (fun u hu => h u (List.mem_cons_of_mem t hu)) m

/-! ### Lemmas about fetch orchestration -/

theorem collectTrades_error_of_mem {rs : List Response}
    (h : Response.httpError ∈ rs) : collectTrades rs = .error () := by
  induction rs with
  | nil => cases h
  | cons r rs ih =>
    rcases List.mem_cons.mp h with h1 | h2
    · subst h1; rfl
    · cases hr : responseTrades r with
      | error e => simp [collectTrades, hr]
      | ok ts => simp [collectTrades, hr, ih h2]

theorem collectTrades_drop_malformed (rs1 rs2 : List Response) :
    collectTrades (rs1 ++ Response.ok (Body.jsonWith none) :: rs2) =
      collectTrades (rs1 ++ rs2) := by
  induction rs1 with
  | nil =>
    cases c : collectTrades rs2 <;>
      simp [collectTrades, responseTrades, c]
  | cons r rs ih =>
    cases hr : responseTrades r <;>
      simp [collectTrades, hr, ih]

/-! ### The claims -/

/-- C1: the spec claims all encodings of an instant normalize to the
same epoch seconds, in particular that the number 1700000000000 (ms)
normalizes to 1700000000.  The code's numeric branch converts only
values above 2·10^12, so the ms-number 1700000000000 passes through
unchanged, while the other four encodings do normalize to 1700000000 —
contradicting the branch's own "treat 13-digit as ms" comment and the
string branch's handling of the same digits. -/
theorem toSec_ms_number_threshold_bug :
    toSec (.num (.fin 1700000000000)) = some (.fin 1700000000000) ∧
    toSec (.num (.fin 1700000000000)) ≠ some (.fin 1700000000) ∧
    toSec (.num (.fin 1700000000)) = some (.fin 1700000000) ∧
    toSec (.str "1700000000000") = some (.fin 1700000000) ∧
    toSec (.str "1700000000") = some (.fin 1700000000) ∧
    toSec (.str "2023-11-14T22:13:20Z") = some (.fin 1700000000) := by
  decide

/-- C2: the Equity Curve Builder is a prefix sum over the days sorted
ascending: the emitted days are exactly the sorted keys, the i-th
equity is the starting balance plus the sum of the first i+1 daily
values, the empty mapping yields the empty sequence, and the spec's
concrete example evaluates as claimed. -/
theorem equity_curve_is_prefix_sum :
    (∀ (m : DailyPL) (sb : ℚ),
        (buildCurve m sb).map Prod.fst = sortedDays m) ∧
    (∀ (m : DailyPL) (sb : ℚ) (i : ℕ) (day : String),
        (sortedDays m)[i]? = some day →
        (buildCurve m sb)[i]? =
          some (day, sb + (((sortedDays m).take (i + 1)).map (lookup0 m)).sum)) ∧
    (∀ sb : ℚ, buildCurve [] sb = []) ∧
    buildCurve [("2024-01-01", 10), ("2024-01-02", -5)] 100 =
      [("2024-01-01", 110), ("2024-01-02", 105)] := by
  refine ⟨?_, ?_, ?_, by decide⟩
  · intro m sb
    rw [buildCurve_eq_curveGo]
    exact curveGo_map_fst m (sortedDays m) sb
  · intro m sb i day h
    rw [buildCurve_eq_curveGo]
    exact curveGo_getElem m (sortedDays m) sb i day h
  · intro sb
    rfl

/-- Witness for C2 at the spec's concrete example: the point at index 1
is "2024-01-02" with equity 100 plus the sum of the first two daily
values. -/
theorem equity_curve_is_prefix_sum_witness :
    (buildCurve [("2024-01-01", 10), ("2024-01-02", -5)] 100)[1]? =
      some ("2024-01-02",
        100 + (((sortedDays [("2024-01-01", 10), ("2024-01-02", -5)]).take 2).map
          (lookup0 [("2024-01-01", 10), ("2024-01-02", -5)])).sum) :=
  equity_curve_is_prefix_sum.2.1 [("2024-01-01", 10), ("2024-01-02", -5)] 100 1
    "2024-01-02" (by decide)

/-- C3: if any per-symbol fetch fails, the whole cycle aborts: the
previously committed points are preserved unchanged and the error flag
is set, regardless of what the other responses contained. -/
theorem failed_fetch_preserves_points (rs : List Response) (sb : ℚ)
    (st : ComponentState) (h : Response.httpError ∈ rs) :
    fetchAllStep rs sb st = ⟨st.points, true⟩ := by
  simp [fetchAllStep, collectTrades_error_of_mem h]

/-- Witness for C3: a failing fetch next to a successful symbol with a
usable trade leaves the committed points unchanged and reports the
failure. -/
theorem failed_fetch_preserves_points_witness :
    fetchAllStep [Response.ok (Body.jsonWith (some [usableTrade])), Response.httpError]
      1000 ⟨[("2023-01-01", 7)], false⟩ = ⟨[("2023-01-01", 7)], true⟩ :=
  failed_fetch_preserves_points _ _ _ (by decide)

/-- C4 counterexample: the claim says every invalid input — NaN
included — normalizes to absent and the result is always an integer or
absent.  On the code, `toSec(NaN)` is `NaN` (the numeric branch passes
any number not above the threshold straight through), which is neither
absent nor an integer. -/
theorem toSec_nan_not_absent :
    toSec (.num .nan) = some .nan ∧
    ¬(toSec (.num .nan) = none ∨
      ∃ k : ℤ, toSec (.num .nan) = some (.fin (k : ℚ))) := by
  refine ⟨rfl, ?_⟩
  rintro (h | ⟨k, hk⟩)
  · exact Option.noConfusion h
  · exact JNum.noConfusion (Option.some.inj hk)

/-- C4 amended: the normalizer is total (modelled as a total function,
it raises nothing); nullish input yields absent, a string input always
yields an integer count of seconds or absent, but a numeric input is
passed through arithmetically — NaN, the infinities and non-integer
numbers not above 2·10^12 are returned as they are, not as absent. -/
theorem toSec_total_amended :
    toSec .nullish = none ∧
    (∀ n : JNum, toSec (.num n) =
        some (if n.gtConst 2000000000000 then n.floorDiv1000 else n)) ∧
    (∀ s : String, toSec (.str s) = none ∨
        ∃ k : ℤ, toSec (.str s) = some (.fin (k : ℚ))) := by
  refine ⟨rfl, ?_, ?_⟩
  · intro n
    by_cases h : n.gtConst 2000000000000 <;> simp [toSec, h]
  · intro s
    simp only [toSec]
    by_cases h13 : s.data.length = 13 ∧ s.data.all Char.isDigit
    · right
      exact ⟨⌊(digitsVal s : ℚ) / 1000⌋, by simp [h13]⟩
    · by_cases h10 : s.data.length = 10 ∧ s.data.all Char.isDigit
      · right
        refine ⟨(digitsVal s : ℤ), ?_⟩
        simp [h13, h10]
      · cases hd : parseDateMs s with
        | none => left; rw [if_neg h13, if_neg h10]
        | some t => right; exact ⟨Int.fdiv t 1000, by rw [if_neg h13, if_neg h10]⟩

/-- C5: PnL resolution probes `real_profit_loss`,
`real_net_profit_loss`, `real_net_pnl`, `real_pnl` in that order, using
an already-numeric value directly and otherwise accepting a present
value only when its coercion is finite; the spec's two concrete
examples resolve to 5 and 12.5. -/
theorem pl_resolution_priority :
    (∀ t : Trade, getPL t = getPLSpec t) ∧
    getPL { real_profit_loss := .num (.fin 5), real_net_pnl := .num (.fin 999) } =
      some (.fin 5) ∧
    getPL { real_profit_loss := .nullish, real_net_profit_loss := .str "12.5" } =
      some (.fin 12.5) := by
  refine ⟨?_, by decide, by decide⟩
  intro t
  simp only [getPLSpec, plFieldOrder, List.map_cons, List.map_nil, firstSome, getPL]
  cases plField t.real_profit_loss <;> cases plField t.real_net_profit_loss <;>
    cases plField t.real_net_pnl <;> cases plField t.real_pnl <;> rfl

/-- C6: close-timestamp resolution returns the first non-absent
normalized value over `close_timestamp`, `exit`, `close_time`,
`timestamp`, `entry_timestamp` in that order; a field normalizing to 0
stops the search (absence, not falsiness, short-circuits) while an
unparseable field lets it continue. -/
theorem close_time_resolution_priority :
    (∀ t : Trade, getCloseSec t = getCloseSecSpec t) ∧
    getCloseSec { close_timestamp := .num (.fin 0), exit := .num (.fin 5) } =
      some (.fin 0) ∧
    getCloseSec { close_timestamp := .str "garbage", exit := .num (.fin 7) } =
      some (.fin 7) := by
  refine ⟨?_, by decide, by decide⟩
  intro t
  simp only [getCloseSecSpec, closeFieldOrder, List.map_cons, List.map_nil, firstSome,
    getCloseSec]
  cases toSec t.close_timestamp <;> cases toSec t.exit <;> cases toSec t.close_time <;>
    cases toSec t.timestamp <;> cases toSec t.entry_timestamp <;> rfl

/-- C7: the Daily Aggregator is permutation-invariant: aggregating any
permutation of a trade list produces an identical daily-sums mapping —
identical as a mapping, i.e. the same sum or the same absence under
every day key (a JavaScript object records key-insertion order, which a
permutation may change, but the mapping it denotes is the same), and
both runs throw together. -/
theorem daily_aggregation_perm_invariant (l1 l2 : List Trade) (m : DailyPL)
    (p : l1.Perm l2) : exceptMapEq (aggregate l1 m) (aggregate l2 m) := by
  rw [aggregate_eq_fold l1 m, aggregate_eq_fold l2 m, perm_any_eq p throwsB]
  by_cases h : l2.any throwsB
  · simp [h, exceptMapEq]
  · simp only [h, Bool.false_eq_true, if_false]
    exact perm_foldl_applyEffect p (fun _ => rfl)

/-- Witness for C7: swapping two usable trades on different days gives
the identical daily mapping. -/
theorem daily_aggregation_perm_invariant_witness :
    exceptMapEq (aggregate [usableTrade, usableTrade2] [])
      (aggregate [usableTrade2, usableTrade] []) :=
  daily_aggregation_perm_invariant _ _ _ (List.Perm.swap usableTrade2 usableTrade [])

/-- C8: a trade whose close timestamp resolves to absent, or whose PnL
resolves to absent or non-finite, contributes to no bucket (a list of
only such trades aggregates exactly like the empty list), and a usable
trade contributes to exactly one bucket: its own day key gains its PnL
and every other key is untouched. -/
theorem unusable_trades_contribute_nothing (ts : List Trade)
    (hts : ∀ t ∈ ts, getCloseSec t = none ∨ plFiniteVal t = none)
    (t : Trade) (day : String) (pl : ℚ) (ht : tradeEffect t = .add day pl)
    (m : DailyPL) :
    aggregate ts m = aggregate [] m ∧
    lookupD (applyEffect m t) day = some (lookup0 m day + pl) ∧
    (∀ d, d ≠ day → lookupD (applyEffect m t) d = lookupD m d) := by
  refine ⟨?_, ?_, ?_⟩
  · rw [aggregate_all_skip ts (fun u hu => tradeEffect_skip_of_unusable u (hts u hu)) m]
    rfl
  · simp [applyEffect, ht, lookupD_addTo]
  · intro d hd
    simp [applyEffect, ht, lookupD_addTo, hd]

/-- Witness for C8: the all-absent trade contributes nothing and the
usable trade adds 50 to exactly the bucket "2023-11-14". -/
theorem unusable_trades_contribute_nothing_witness :
    aggregate [({} : Trade)] [] = aggregate [] [] ∧
    lookupD (applyEffect [] usableTrade) "2023-11-14" =
      some (lookup0 [] "2023-11-14" + 50) ∧
    (∀ d, d ≠ "2023-11-14" →
      lookupD (applyEffect [] usableTrade) d = lookupD [] d) :=
  unusable_trades_contribute_nothing [({} : Trade)] (by decide) usableTrade
    "2023-11-14" 50 (by decide) []

/-- C9 counterexample: the claim says a response whose body is not
valid structured data is tolerated and the cycle completes without
reporting an error; on the code, `res.json()` rejecting makes the
cycle report a failure. -/
theorem invalid_json_body_reports_error :
    (fetchAllStep [Response.ok Body.invalidJson] 1000 ⟨[], false⟩).err = true := by
  decide

/-- C9 amended: a parsed response body whose `trades` field is absent
or not an array is tolerated — it contributes zero trades anywhere in
the response list, and such a response alone completes the cycle with
no error — but a body on which JSON parsing fails rejects and aborts
the cycle. -/
theorem missing_trades_array_tolerated :
    (∀ (rs1 rs2 : List Response) (sb : ℚ) (st : ComponentState),
        fetchAllStep (rs1 ++ Response.ok (Body.jsonWith none) :: rs2) sb st =
          fetchAllStep (rs1 ++ rs2) sb st) ∧
    (∀ (sb : ℚ) (st : ComponentState),
        fetchAllStep [Response.ok (Body.jsonWith none)] sb st = ⟨[], false⟩) ∧
    (∀ (sb : ℚ) (st : ComponentState),
        fetchAllStep [Response.ok Body.invalidJson] sb st = ⟨st.points, true⟩) := by
  refine ⟨?_, ?_, ?_⟩
  · intro rs1 rs2 sb st
    simp [fetchAllStep, collectTrades_drop_malformed]
  · intro sb st
    rfl
  · intro sb st
    rfl

/-- C10: a trade whose resolved close timestamp is a finite number
(-10^13 passes the numeric branch through as seconds) but whose time
value -10^16 ms is outside the range `toISOString` accepts makes the
aggregation throw, so the whole cycle reports a failure instead of
silently excluding that trade. -/
theorem out_of_range_close_time_aborts_cycle :
    getCloseSec overflowTrade = some (.fin (-10000000000000)) ∧
    tradeEffect overflowTrade = .throwRange ∧
    aggregate [overflowTrade] [] = .error () ∧
    (∀ (sb : ℚ) (st : ComponentState),
        fetchAllStep [Response.ok (Body.jsonWith (some [overflowTrade]))] sb st =
          ⟨st.points, true⟩) := by
  refine ⟨by decide, by decide, by decide, ?_⟩
  intro sb st
  rfl

end EquityCurve
